import Mathlib

/-!
# Verification of the frame detection stabilizer

Shallow embedding of `DetectorService.detect_humans` and
`DetectorService._calculate_iou` from `src/services/detector_service.py`.
Pixel coordinates, confidences and timestamps are modelled as rationals;
Python `int()` conversion (truncation toward zero) is modelled by `pyInt`.
The tracker dictionary (`self._trackers`, insertion-ordered) is modelled by
an association list with in-place update on existing keys, matching Python
`dict` semantics.
-/

namespace HumanDetector

/-- `PERSON_CLASS_ID` from `utils/constants.py`: COCO class id for person. -/
def PERSON_CLASS_ID : ℤ := 0

/-- `CONFIDENCE_UPDATE_INTERVAL = 0.25` (seconds) from `detector_service.py`. -/
def CONFIDENCE_UPDATE_INTERVAL : ℚ := 1/4

/-- `BOX_SMOOTHING_FACTOR = 0.3` from `detector_service.py`. -/
def BOX_SMOOTHING_FACTOR : ℚ := 3/10

/-- An axis-aligned bounding box `(x1, y1, x2, y2)`. -/
structure Box where
  x1 : ℚ
  y1 : ℚ
  x2 : ℚ
  y2 : ℚ
deriving DecidableEq, Repr

/-- Area term `(x_max - x_min) * (y_max - y_min)` as computed at lines
339-340 of `_calculate_iou` (can be negative for malformed boxes). -/
def boxArea (b : Box) : ℚ :=
  (b.x2 - b.x1) * (b.y2 - b.y1)

/-- Intersection area, lines 327-336 of `_calculate_iou`:
clamped width times clamped height of the coordinate-wise overlap. -/
def interArea (box1 box2 : Box) : ℚ :=
  let xi_min := max box1.x1 box2.x1
  let yi_min := max box1.y1 box2.y1
  let xi_max := min box1.x2 box2.x2
  let yi_max := min box1.y2 box2.y2
  let inter_width := max 0 (xi_max - xi_min)
  let inter_height := max 0 (yi_max - yi_min)
  inter_width * inter_height

/-- Union area `box1_area + box2_area - inter_area`, line 341. -/
def unionArea (box1 box2 : Box) : ℚ :=
  boxArea box1 + boxArea box2 - interArea box1 box2

/-- `DetectorService._calculate_iou` (lines 313-346): intersection over
union, returning `0.0` when the union area is `0`. -/
def calculate_iou (box1 box2 : Box) : ℚ :=
  if unionArea box1 box2 = 0 then 0
  else interArea box1 box2 / unionArea box1 box2

/-- A tracked object: `{'conf': float, 'last_update': float, 'bbox': tuple}`
(line 53 of `detector_service.py`). -/
structure Tracker where
  conf : ℚ
  last_update : ℚ
  bbox : Box
deriving DecidableEq, Repr

/-- A raw per-frame detection as extracted from a YOLO box at lines 192-201:
class id, integer corner coordinates (`map(int, box.xyxy[0])`), raw
confidence. -/
structure RawDet where
  cls : ℤ
  x1 : ℤ
  y1 : ℤ
  x2 : ℤ
  y2 : ℤ
  conf : ℚ
deriving DecidableEq, Repr

/-- `current_bbox = (x1, y1, x2, y2)` (line 201) as a rational box. -/
def RawDet.box (d : RawDet) : Box :=
  ⟨(d.x1 : ℚ), (d.y1 : ℚ), (d.x2 : ℚ), (d.y2 : ℚ)⟩

/-- The tracker dictionary `self._trackers`: insertion-ordered map from
track id to tracker state. -/
abbrev Trackers := List (Nat × Tracker)

/-- Dictionary read `trackers[k]`. -/
def dictGet : Trackers → Nat → Option Tracker
  | [], _ => none
  | (k', v) :: rest, k => if k' = k then some v else dictGet rest k

/-- Dictionary write `trackers[k] = v`: in-place update if the key exists
(keeping its position, as a Python dict does), append otherwise. -/
def dictInsert : Trackers → Nat → Tracker → Trackers
  | [], k, v => [(k, v)]
  | (k', v') :: rest, k, v =>
      if k' = k then (k, v) :: rest else (k', v') :: dictInsert rest k v

/-- The key list of a tracker dictionary, in insertion order. -/
def keys (l : Trackers) : List Nat := l.map Prod.fst

/-- The matching loop of lines 204-211: fold over the previous trackers
carrying `(best_match_id, max_iou)`, starting from `(None, 0.5)` and
taking a new candidate only on strictly larger IoU. -/
def bestMatchAux (bbox : Box) : Trackers → Option Nat × ℚ → Option Nat × ℚ
  | [], acc => acc
  | (tid, data) :: rest, (best, maxIou) =>
      let iou := calculate_iou bbox data.bbox
      if iou > maxIou then bestMatchAux bbox rest (some tid, iou)
      else bestMatchAux bbox rest (best, maxIou)

/-- `best_match_id` after the matching loop (lines 204-211). -/
def findBestMatch (trackers : Trackers) (bbox : Box) : Option Nat :=
  (bestMatchAux bbox trackers (none, 1/2)).1

/-- One coordinate of the exponential moving average smoothing,
lines 230-233: `old * (1 - BOX_SMOOTHING_FACTOR) + new * BOX_SMOOTHING_FACTOR`. -/
def smoothCoord (old new : ℚ) : ℚ :=
  old * (1 - BOX_SMOOTHING_FACTOR) + new * BOX_SMOOTHING_FACTOR

/-- `final_bbox` for a matched detection (lines 227-235): EMA smoothing
applied independently per coordinate. -/
def smoothBox (old new : Box) : Box :=
  ⟨smoothCoord old.x1 new.x1, smoothCoord old.y1 new.y1,
   smoothCoord old.x2 new.x2, smoothCoord old.y2 new.y2⟩

/-- Python `int()` on a float/rational: truncation toward zero
(floor for nonnegative values, ceiling for negative ones). -/
def pyInt (q : ℚ) : ℤ := if q < 0 then ⌈q⌉ else ⌊q⌋

/-- `draw_x1, draw_y1, draw_x2, draw_y2 = map(int, final_bbox)` (line 256). -/
def pyIntBox (b : Box) : ℤ × ℤ × ℤ × ℤ :=
  (pyInt b.x1, pyInt b.y1, pyInt b.x2, pyInt b.y2)

/-- One entry appended to `detections` (lines 258-262): integer drawing
box, displayed confidence, class id. -/
structure OutDet where
  bbox : ℤ × ℤ × ℤ × ℤ
  confidence : ℚ
  class_id : ℤ
deriving DecidableEq, Repr

/-- The mutable loop state while processing one frame's boxes:
`current_trackers`, `self._next_track_id`, and the `detections` output
list under construction. -/
structure FrameAcc where
  cur : Trackers
  nid : Nat
  outs : List OutDet
deriving DecidableEq, Repr

/-- The body of the per-box loop of `detect_humans` (lines 191-262), given
the previous frame's trackers `prev` (`self._trackers`, which the loop
reads but never mutates) and `current_time` `t`. Non-person classes are
skipped; a matched detection updates the throttled confidence and the
smoothed box; an unmatched detection allocates a fresh track id and stores
the raw values. -/
def processDet (prev : Trackers) (t : ℚ) (acc : FrameAcc) (d : RawDet) : FrameAcc :=
  if d.cls ≠ PERSON_CLASS_ID then acc
  else
    let current_bbox : Box := d.box
    match findBestMatch prev current_bbox with
    | some best_match_id =>
        match dictGet prev best_match_id with
        | some tracker =>
            let display_conf :=
              if t - tracker.last_update > CONFIDENCE_UPDATE_INTERVAL
              then d.conf else tracker.conf
            let last_update :=
              if t - tracker.last_update > CONFIDENCE_UPDATE_INTERVAL
              then t else tracker.last_update
            let final_bbox := smoothBox tracker.bbox current_bbox
            { acc with
              cur := dictInsert acc.cur best_match_id
                       ⟨display_conf, last_update, final_bbox⟩,
              outs := acc.outs ++ [⟨pyIntBox final_bbox, display_conf, d.cls⟩] }
        | none => acc
    | none =>
        let new_id := acc.nid + 1
        let final_bbox := current_bbox
        { cur := dictInsert acc.cur new_id ⟨d.conf, t, final_bbox⟩,
          nid := new_id,
          outs := acc.outs ++ [⟨pyIntBox final_bbox, d.conf, d.cls⟩] }

/-- The stabilizer's persistent state: `self._trackers` and
`self._next_track_id`. -/
structure StabState where
  trackers : Trackers
  next_track_id : Nat
deriving DecidableEq, Repr

/-- One full successful call of `detect_humans` restricted to the
stabilizer (lines 179-299): process every raw box against the previous
trackers, then replace `self._trackers` with `current_trackers` and return
the emitted detections. -/
def detectFrame (s : StabState) (dets : List RawDet) (t : ℚ) :
    StabState × List OutDet :=
  let acc := dets.foldl (processDet s.trackers t) ⟨[], s.next_track_id, []⟩
  (⟨acc.cur, acc.nid⟩, acc.outs)

/-- Full service state including `self._last_detections`. -/
structure DetectorState where
  trackers : Trackers
  next_track_id : Nat
  last_detections : List OutDet
deriving DecidableEq, Repr

/-- `detect_humans` with its try/except (lines 175-303): on successful
inference the stabilizer runs, state is committed and the annotated frame
with the count and detections is returned; if inference raises, the
original frame, count `0` and an empty list are returned and no state is
touched. The frame and annotation are opaque (`α`, `annotate`). -/
def detect_humans {α : Type} (annotate : α → List OutDet → α)
    (s : DetectorState) (frame : α) (inference : Except Unit (List RawDet))
    (t : ℚ) : DetectorState × α × Nat × List OutDet :=
  match inference with
  | .error _ => (s, frame, 0, [])
  | .ok dets =>
      let r := detectFrame ⟨s.trackers, s.next_track_id⟩ dets t
      (⟨r.1.trackers, r.1.next_track_id, r.2⟩,
       annotate frame r.2, r.2.length, r.2)

/-- `get_last_detections` (lines 305-307). -/
def get_last_detections (s : DetectorState) : List OutDet :=
  s.last_detections

/-- One invocation, as a step on the stabilizer state alone. -/
def stepFrame (s : StabState) (f : List RawDet × ℚ) : StabState :=
  (detectFrame s f.1 f.2).1

/-- A run of the stabilizer over a sequence of frames. -/
def run (s : StabState) (fs : List (List RawDet × ℚ)) : StabState :=
  fs.foldl stepFrame s

/-- The freshly constructed service state (`__init__`, lines 50-55). -/
def initState : StabState := ⟨[], 0⟩

/-- The stabilizer state reached from `pre` frames after a fresh start. -/
def stateAfter (pre : List (List RawDet × ℚ)) : StabState :=
  run initState pre

/-- A person detection at box `(0,0,100,100)` with confidence `0.9`. -/
def seedDetA : RawDet := ⟨0, 0, 0, 100, 100, 9/10⟩

/-- State after one frame containing `seedDetA` at time `0`: one tracked
object, id `1`, box `(0,0,100,100)`. -/
def cexState1 : StabState := stepFrame initState ([seedDetA], 0)

/-- A second person detection at `(0,0,100,99)`, IoU `0.99` with the
`cexState1` tracker. -/
def cexDetB : RawDet := ⟨0, 0, 0, 100, 99, 8/10⟩

/-- A person detection at box `(10,10,50,50)` with confidence `0.9`
(frame 1 of the worked example in the spec, section 8). -/
def seedDet2 : RawDet := ⟨0, 10, 10, 50, 50, 9/10⟩

/-- State after one frame containing `seedDet2` at time `0`: one tracked
object, id `1`, box `(10,10,50,50)`, confidence `0.9`. -/
def cexState2 : StabState := stepFrame initState ([seedDet2], 0)

/-- Frame-2 detection of the worked example: box `(12,10,52,50)`,
confidence `0.85`. -/
def cexDet2 : RawDet := ⟨0, 12, 10, 52, 50, 17/20⟩

/-- Person detection at `(0,0,10,10)` with confidence `0.9` (used in the
confidence-throttle witness scenario). -/
def wDetA : RawDet := ⟨0, 0, 0, 10, 10, 9/10⟩

/-- Person detection at the same box with confidence `0.85`. -/
def wDetB : RawDet := ⟨0, 0, 0, 10, 10, 17/20⟩

/-! ## Dictionary lemmas -/

theorem dictGet_mem {l : Trackers} {k : Nat} {v : Tracker}
    (h : dictGet l k = some v) : (k, v) ∈ l := by
  induction l with
  | nil => simp [dictGet] at h
  | cons p rest ih =>
      obtain ⟨k', v'⟩ := p
      by_cases hk : k' = k
      · subst hk
        simp [dictGet] at h
        simp [h]
      · simp [dictGet, hk] at h
        exact List.mem_cons_of_mem _ (ih h)

theorem mem_keys_iff_dictGet {l : Trackers} {k : Nat} :
    k ∈ keys l ↔ ∃ v, dictGet l k = some v := by
  induction l with
  | nil => simp [keys, dictGet]
  | cons p rest ih =>
      obtain ⟨k', v'⟩ := p
      by_cases hk : k' = k
      · subst hk
        simp [keys, dictGet]
      · simp [keys, dictGet, hk, Ne.symm hk]
        simpa [keys] using ih

theorem dictGet_insert_self (l : Trackers) (k : Nat) (v : Tracker) :
    dictGet (dictInsert l k v) k = some v := by
  induction l with
  | nil => simp [dictInsert, dictGet]
  | cons p rest ih =>
      obtain ⟨k', v'⟩ := p
      by_cases hk : k' = k
      · subst hk
        simp [dictInsert, dictGet]
      · simp [dictInsert, dictGet, hk, ih]

theorem dictGet_insert_ne (l : Trackers) (k : Nat) (v : Tracker) (k' : Nat)
    (h : k' ≠ k) : dictGet (dictInsert l k v) k' = dictGet l k' := by
  induction l with
  | nil => simp [dictInsert, dictGet, Ne.symm h]
  | cons p rest ih =>
      obtain ⟨k'', v''⟩ := p
      by_cases hk : k'' = k
      · subst hk
        simp [dictInsert, dictGet, Ne.symm h]
      · simp [dictInsert, dictGet, hk, ih]

theorem mem_keys_insert {l : Trackers} {k k' : Nat} {v : Tracker} :
    k' ∈ keys (dictInsert l k v) ↔ k' ∈ keys l ∨ k' = k := by
  induction l with
  | nil => simp [dictInsert, keys]
  | cons p rest ih =>
      obtain ⟨k'', v''⟩ := p
      by_cases hk : k'' = k
      · subst hk
        simp [dictInsert, keys]
        tauto
      · simp [dictInsert, keys, hk] at ih ⊢
        tauto

theorem keys_insert (l : Trackers) (k : Nat) (v : Tracker) :
    keys (dictInsert l k v) = if k ∈ keys l then keys l else keys l ++ [k] := by
  induction l with
  | nil => simp [dictInsert, keys]
  | cons p rest ih =>
      obtain ⟨k'', v''⟩ := p
      by_cases hk : k'' = k
      · subst hk
        simp [dictInsert, keys]
      · have h1 : dictInsert ((k'', v'') :: rest) k v =
            (k'', v'') :: dictInsert rest k v := by
          simp [dictInsert, hk]
        have hki : keys ((k'', v'') :: dictInsert rest k v) =
            k'' :: keys (dictInsert rest k v) := rfl
        rw [h1, hki, ih]
        have hmem2 : (k ∈ keys ((k'', v'') :: rest)) ↔ k ∈ keys rest := by
          simp [keys, Ne.symm hk]
        by_cases hmem : k ∈ keys rest
        · rw [if_pos hmem, if_pos (hmem2.mpr hmem)]
          rfl
        · rw [if_neg hmem, if_neg (fun hc => hmem (hmem2.mp hc))]
          rfl

theorem keys_nodup_insert {l : Trackers} {k : Nat} {v : Tracker}
    (h : (keys l).Nodup) : (keys (dictInsert l k v)).Nodup := by
  rw [keys_insert]
  split_ifs with hmem
  · exact h
  · simp [List.nodup_append, h, hmem]

/-! ## IoU lemmas -/

theorem interArea_comm (a b : Box) : interArea a b = interArea b a := by
  simp only [interArea]
  rw [max_comm a.x1 b.x1, max_comm a.y1 b.y1, min_comm a.x2 b.x2,
    min_comm a.y2 b.y2]

theorem unionArea_comm (a b : Box) : unionArea a b = unionArea b a := by
  simp only [unionArea, interArea_comm a b]
  ring

theorem calculate_iou_comm (a b : Box) :
    calculate_iou a b = calculate_iou b a := by
  simp only [calculate_iou, unionArea_comm a b, interArea_comm a b]

theorem interArea_self (a : Box) (hx : a.x1 ≤ a.x2) (hy : a.y1 ≤ a.y2) :
    interArea a a = boxArea a := by
  simp only [interArea, boxArea, max_self, min_self]
  rw [max_eq_right (sub_nonneg.mpr hx), max_eq_right (sub_nonneg.mpr hy)]

theorem calculate_iou_self (a : Box) (hx : a.x1 < a.x2) (hy : a.y1 < a.y2) :
    calculate_iou a a = 1 := by
  have hA : boxArea a > 0 :=
    mul_pos (sub_pos.mpr hx) (sub_pos.mpr hy)
  have hI : interArea a a = boxArea a := interArea_self a hx.le hy.le
  have hU : unionArea a a = boxArea a := by
    simp only [unionArea, hI]; ring
  simp only [calculate_iou, hU, hI]
  rw [if_neg (ne_of_gt hA)]
  exact div_self (ne_of_gt hA)

theorem interArea_of_separated (a b : Box)
    (h : a.x2 ≤ b.x1 ∨ b.x2 ≤ a.x1 ∨ a.y2 ≤ b.y1 ∨ b.y2 ≤ a.y1) :
    interArea a b = 0 := by
  simp only [interArea]
  rcases h with h | h | h | h
  · have : min a.x2 b.x2 - max a.x1 b.x1 ≤ 0 := by
      have h1 : min a.x2 b.x2 ≤ a.x2 := min_le_left _ _
      have h2 : b.x1 ≤ max a.x1 b.x1 := le_max_right _ _
      linarith
    rw [max_eq_left this, zero_mul]
  · have : min a.x2 b.x2 - max a.x1 b.x1 ≤ 0 := by
      have h1 : min a.x2 b.x2 ≤ b.x2 := min_le_right _ _
      have h2 : a.x1 ≤ max a.x1 b.x1 := le_max_left _ _
      linarith
    rw [max_eq_left this, zero_mul]
  · have : min a.y2 b.y2 - max a.y1 b.y1 ≤ 0 := by
      have h1 : min a.y2 b.y2 ≤ a.y2 := min_le_left _ _
      have h2 : b.y1 ≤ max a.y1 b.y1 := le_max_right _ _
      linarith
    rw [max_eq_left this, mul_zero]
  · have : min a.y2 b.y2 - max a.y1 b.y1 ≤ 0 := by
      have h1 : min a.y2 b.y2 ≤ b.y2 := min_le_right _ _
      have h2 : a.y1 ≤ max a.y1 b.y1 := le_max_left _ _
      linarith
    rw [max_eq_left this, mul_zero]

theorem calculate_iou_of_separated (a b : Box)
    (h : a.x2 ≤ b.x1 ∨ b.x2 ≤ a.x1 ∨ a.y2 ≤ b.y1 ∨ b.y2 ≤ a.y1) :
    calculate_iou a b = 0 := by
  simp only [calculate_iou, interArea_of_separated a b h]
  split_ifs <;> simp

/-! ## Matching-loop lemmas -/

theorem bestMatchAux_spec (b : Box) :
    ∀ (l : Trackers) (best : Option Nat) (m : ℚ),
      (bestMatchAux b l (best, m) = (best, m) ∨
        ∃ k tr, (k, tr) ∈ l ∧ (bestMatchAux b l (best, m)).1 = some k ∧
          (bestMatchAux b l (best, m)).2 = calculate_iou b tr.bbox ∧
          m < calculate_iou b tr.bbox) ∧
      m ≤ (bestMatchAux b l (best, m)).2 ∧
      ∀ p ∈ l, calculate_iou b p.2.bbox ≤ (bestMatchAux b l (best, m)).2 := by
  intro l
  induction l with
  | nil =>
      intro best m
      simp [bestMatchAux]
  | cons p rest ih =>
      intro best m
      obtain ⟨tid, data⟩ := p
      by_cases hgt : calculate_iou b data.bbox > m
      · have hunf : bestMatchAux b ((tid, data) :: rest) (best, m) =
            bestMatchAux b rest (some tid, calculate_iou b data.bbox) := by
          simp [bestMatchAux, hgt]
        rw [hunf]
        obtain ⟨hdisj, hge, hall⟩ := ih (some tid) (calculate_iou b data.bbox)
        refine ⟨?_, le_trans (le_of_lt hgt) hge, ?_⟩
        · rcases hdisj with heq | ⟨k, tr, hmem, h1, h2, h3⟩
          · right
            exact ⟨tid, data, List.mem_cons_self _ _, by rw [heq],
              by rw [heq], hgt⟩
          · right
            exact ⟨k, tr, List.mem_cons_of_mem _ hmem, h1, h2,
              lt_trans hgt h3⟩
        · intro q hq
          rcases List.mem_cons.mp hq with rfl | hq'
          · exact hge
          · exact hall q hq'
      · have hunf : bestMatchAux b ((tid, data) :: rest) (best, m) =
            bestMatchAux b rest (best, m) := by
          simp [bestMatchAux, hgt]
        rw [hunf]
        obtain ⟨hdisj, hge, hall⟩ := ih best m
        refine ⟨?_, hge, ?_⟩
        · rcases hdisj with heq | ⟨k, tr, hmem, h1, h2, h3⟩
          · exact Or.inl heq
          · exact Or.inr ⟨k, tr, List.mem_cons_of_mem _ hmem, h1, h2, h3⟩
        · intro q hq
          rcases List.mem_cons.mp hq with rfl | hq'
          · exact le_trans (not_lt.mp hgt) hge
          · exact hall q hq'

theorem findBestMatch_some {l : Trackers} {b : Box} {k : Nat}
    (h : findBestMatch l b = some k) :
    ∃ tr, (k, tr) ∈ l ∧ 1/2 < calculate_iou b tr.bbox ∧
      ∀ p ∈ l, calculate_iou b p.2.bbox ≤ calculate_iou b tr.bbox := by
  obtain ⟨hdisj, hge, hall⟩ := bestMatchAux_spec b l none (1/2)
  rcases hdisj with heq | ⟨k', tr, hmem, h1, h2, h3⟩
  · rw [findBestMatch, heq] at h
    cases h
  · have hk : k' = k := by
      rw [findBestMatch, h1] at h
      exact Option.some.inj h
    subst hk
    refine ⟨tr, hmem, h3, fun p hp => ?_⟩
    rw [← h2]
    exact hall p hp

theorem findBestMatch_none {l : Trackers} {b : Box}
    (h : ∀ p ∈ l, calculate_iou b p.2.bbox ≤ 1/2) :
    findBestMatch l b = none := by
  obtain ⟨hdisj, hge, hall⟩ := bestMatchAux_spec b l none (1/2)
  rcases hdisj with heq | ⟨k, tr, hmem, h1, h2, h3⟩
  · rw [findBestMatch, heq]
  · exact absurd (h _ hmem) (not_le.mpr h3)

theorem findBestMatch_mem_keys {l : Trackers} {b : Box} {k : Nat}
    (h : findBestMatch l b = some k) : k ∈ keys l := by
  obtain ⟨tr, hmem, _, _⟩ := findBestMatch_some h
  exact List.mem_map_of_mem Prod.fst hmem

/-! ## Per-detection step equations -/

theorem processDet_skip (prev : Trackers) (t : ℚ) (acc : FrameAcc)
    {d : RawDet} (hcls : d.cls ≠ PERSON_CLASS_ID) :
    processDet prev t acc d = acc := by
  simp [processDet, hcls]

theorem processDet_matched (prev : Trackers) (t : ℚ) (acc : FrameAcc)
    {d : RawDet} {k : Nat} {tr : Tracker}
    (hcls : d.cls = PERSON_CLASS_ID)
    (hm : findBestMatch prev d.box = some k)
    (hg : dictGet prev k = some tr) :
    processDet prev t acc d =
      { acc with
        cur := dictInsert acc.cur k
          ⟨if t - tr.last_update > CONFIDENCE_UPDATE_INTERVAL then d.conf
            else tr.conf,
           if t - tr.last_update > CONFIDENCE_UPDATE_INTERVAL then t
            else tr.last_update,
           smoothBox tr.bbox d.box⟩,
        outs := acc.outs ++
          [⟨pyIntBox (smoothBox tr.bbox d.box),
            if t - tr.last_update > CONFIDENCE_UPDATE_INTERVAL then d.conf
              else tr.conf,
            d.cls⟩] } := by
  simp [processDet, hcls, hm, hg]

theorem processDet_unmatched (prev : Trackers) (t : ℚ) (acc : FrameAcc)
    {d : RawDet} (hcls : d.cls = PERSON_CLASS_ID)
    (hnone : findBestMatch prev d.box = none) :
    processDet prev t acc d =
      ⟨dictInsert acc.cur (acc.nid + 1) ⟨d.conf, t, d.box⟩,
       acc.nid + 1,
       acc.outs ++ [⟨pyIntBox d.box, d.conf, d.cls⟩]⟩ := by
  simp [processDet, hcls, hnone]

theorem pyInt_intCast (n : ℤ) : pyInt (n : ℚ) = n := by
  unfold pyInt
  split_ifs <;> simp

/-! ## Claim theorems: the IoU function (C7, C8) and matching (C4) -/

/-- C7: `_calculate_iou` is reflexively `1` on non-degenerate boxes
(`x1 < x2`, `y1 < y2`), `0` on disjoint (separated) boxes, and symmetric
in its two arguments. -/
theorem iou_reflexive_disjoint_symmetric (a b : Box) :
    (a.x1 < a.x2 → a.y1 < a.y2 → calculate_iou a a = 1) ∧
    (a.x2 ≤ b.x1 ∨ b.x2 ≤ a.x1 ∨ a.y2 ≤ b.y1 ∨ b.y2 ≤ a.y1 →
      calculate_iou a b = 0) ∧
    calculate_iou a b = calculate_iou b a :=
  ⟨fun hx hy => calculate_iou_self a hx hy,
   fun h => calculate_iou_of_separated a b h,
   calculate_iou_comm a b⟩

/-- Witness for C7: the unit box has IoU `1` with itself, and IoU `0`
with the disjoint box `(2,2,3,3)`. -/
theorem iou_reflexive_disjoint_symmetric_witness :
    calculate_iou ⟨0, 0, 1, 1⟩ ⟨0, 0, 1, 1⟩ = 1 ∧
    calculate_iou ⟨0, 0, 1, 1⟩ ⟨2, 2, 3, 3⟩ = 0 :=
  ⟨(iou_reflexive_disjoint_symmetric ⟨0, 0, 1, 1⟩ ⟨0, 0, 1, 1⟩).1
      (by norm_num) (by norm_num),
   (iou_reflexive_disjoint_symmetric ⟨0, 0, 1, 1⟩ ⟨2, 2, 3, 3⟩).2.1
      (Or.inl (by norm_num))⟩

/-- C8: whenever the union area of two boxes is `0` (degenerate or
malformed boxes), `_calculate_iou` takes its guard branch and returns `0`
instead of dividing by zero, so such boxes are treated as zero overlap. -/
theorem iou_zero_union (a b : Box) (h : unionArea a b = 0) :
    calculate_iou a b = 0 := by
  simp [calculate_iou, h]

/-- Witness for C8: two degenerate (zero-area, non-overlapping) boxes
have union area `0` and IoU `0`. -/
theorem iou_zero_union_witness :
    calculate_iou ⟨0, 0, 0, 0⟩ ⟨5, 5, 5, 9⟩ = 0 :=
  iou_zero_union _ _ (by norm_num [unionArea, boxArea, interArea])

/-- C4: a detection matches a tracked object only with IoU strictly above
`0.5` (an IoU of exactly `0.5` never matches, since the loop seeds
`max_iou = 0.5` and compares with strict `>`), and a returned match
carries the maximal IoU among all tracked objects (the first such, so the
choice is deterministic). -/
theorem matching_threshold_strict_and_max (l : Trackers) (b : Box) :
    (∀ k, findBestMatch l b = some k →
      ∃ tr, (k, tr) ∈ l ∧ 1/2 < calculate_iou b tr.bbox ∧
        ∀ p ∈ l, calculate_iou b p.2.bbox ≤ calculate_iou b tr.bbox) ∧
    ((∀ p ∈ l, calculate_iou b p.2.bbox ≤ 1/2) → findBestMatch l b = none) :=
  ⟨fun _ h => findBestMatch_some h, fun h => findBestMatch_none h⟩

/-- Witness for C4: the box `(0,0,1,1)` has IoU exactly `1/2` with the
tracked box `(0,0,2,1)` and is not matched; against two tracked objects
with IoUs `≈ 0.0001` and `0.99`, the higher one (id `2`) is returned. -/
theorem matching_threshold_strict_and_max_witness :
    findBestMatch [(1, ⟨9/10, 0, ⟨0, 0, 2, 1⟩⟩)] ⟨0, 0, 1, 1⟩ = none ∧
    ∃ tr, ((2 : Nat), tr) ∈
        ([(1, ⟨9/10, 0, ⟨0, 0, 1, 1⟩⟩), (2, ⟨8/10, 0, ⟨0, 0, 100, 99⟩⟩)] :
          Trackers) ∧
      1/2 < calculate_iou ⟨0, 0, 100, 100⟩ tr.bbox ∧
      ∀ p ∈ ([(1, ⟨9/10, 0, ⟨0, 0, 1, 1⟩⟩), (2, ⟨8/10, 0, ⟨0, 0, 100, 99⟩⟩)] :
          Trackers),
        calculate_iou ⟨0, 0, 100, 100⟩ p.2.bbox ≤
          calculate_iou ⟨0, 0, 100, 100⟩ tr.bbox :=
  ⟨(matching_threshold_strict_and_max [(1, ⟨9/10, 0, ⟨0, 0, 2, 1⟩⟩)]
      ⟨0, 0, 1, 1⟩).2
      (by
        intro p hp
        simp at hp
        rw [hp]
        norm_num [calculate_iou, unionArea, interArea, boxArea, max_def,
          min_def]),
   (matching_threshold_strict_and_max
      [(1, ⟨9/10, 0, ⟨0, 0, 1, 1⟩⟩), (2, ⟨8/10, 0, ⟨0, 0, 100, 99⟩⟩)]
      ⟨0, 0, 100, 100⟩).1 2
      (by
        norm_num [findBestMatch, bestMatchAux, calculate_iou, unionArea,
          interArea, boxArea, max_def, min_def])⟩

/-! ## Frame-fold lemmas -/

theorem processDet_nid_ge (prev : Trackers) (t : ℚ) (acc : FrameAcc)
    (d : RawDet) : acc.nid ≤ (processDet prev t acc d).nid := by
  by_cases hcls : d.cls = PERSON_CLASS_ID
  · rcases hmatch : findBestMatch prev d.box with _ | m
    · rw [processDet_unmatched prev t acc hcls hmatch]
      exact Nat.le_succ _
    · obtain ⟨v, hv⟩ :=
        mem_keys_iff_dictGet.mp (findBestMatch_mem_keys hmatch)
      rw [processDet_matched prev t acc hcls hmatch hv]
  · rw [processDet_skip prev t acc hcls]

theorem fold_nid_mono (prev : Trackers) (t : ℚ) :
    ∀ (ds : List RawDet) (acc : FrameAcc),
      acc.nid ≤ (List.foldl (processDet prev t) acc ds).nid := by
  intro ds
  induction ds with
  | nil => intro acc; exact le_rfl
  | cons d rest ih =>
      intro acc
      exact le_trans (processDet_nid_ge prev t acc d)
        (ih (processDet prev t acc d))

theorem processDet_keys_mono {prev : Trackers} {t : ℚ} {acc : FrameAcc}
    {d : RawDet} {k : Nat} (h : k ∈ keys acc.cur) :
    k ∈ keys (processDet prev t acc d).cur := by
  by_cases hcls : d.cls = PERSON_CLASS_ID
  · rcases hmatch : findBestMatch prev d.box with _ | m
    · rw [processDet_unmatched prev t acc hcls hmatch]
      exact mem_keys_insert.mpr (Or.inl h)
    · obtain ⟨v, hv⟩ :=
        mem_keys_iff_dictGet.mp (findBestMatch_mem_keys hmatch)
      rw [processDet_matched prev t acc hcls hmatch hv]
      exact mem_keys_insert.mpr (Or.inl h)
  · rw [processDet_skip prev t acc hcls]
    exact h

theorem fold_keys_mono (prev : Trackers) (t : ℚ) :
    ∀ (ds : List RawDet) (acc : FrameAcc) (k : Nat),
      k ∈ keys acc.cur →
      k ∈ keys (List.foldl (processDet prev t) acc ds).cur := by
  intro ds
  induction ds with
  | nil => intro acc k h; exact h
  | cons d rest ih =>
      intro acc k h
      exact ih (processDet prev t acc d) k (processDet_keys_mono h)

theorem fold_keys_of_matched (prev : Trackers) (t : ℚ) :
    ∀ (ds : List RawDet) (acc : FrameAcc) (k : Nat),
      (∃ d ∈ ds, d.cls = PERSON_CLASS_ID ∧
        findBestMatch prev d.box = some k) →
      k ∈ keys (List.foldl (processDet prev t) acc ds).cur := by
  intro ds
  induction ds with
  | nil =>
      intro acc k h
      simp at h
  | cons d rest ih =>
      intro acc k h
      rcases h with ⟨d', hd', hcls, hmatch⟩
      rcases List.mem_cons.mp hd' with rfl | hmem
      · obtain ⟨v, hv⟩ :=
          mem_keys_iff_dictGet.mp (findBestMatch_mem_keys hmatch)
        apply fold_keys_mono prev t rest (processDet prev t acc d') k
        rw [processDet_matched prev t acc hcls hmatch hv]
        exact mem_keys_insert.mpr (Or.inr rfl)
      · exact ih (processDet prev t acc d) k ⟨d', hmem, hcls, hmatch⟩

theorem fold_keys_of_fresh (prev : Trackers) (t : ℚ) :
    ∀ (ds : List RawDet) (acc : FrameAcc) (k : Nat),
      acc.nid < k → k ≤ (List.foldl (processDet prev t) acc ds).nid →
      k ∈ keys (List.foldl (processDet prev t) acc ds).cur := by
  intro ds
  induction ds with
  | nil =>
      intro acc k h1 h2
      exact absurd h2 (not_le.mpr h1)
  | cons d rest ih =>
      intro acc k h1 h2
      by_cases hcls : d.cls = PERSON_CLASS_ID
      · rcases hmatch : findBestMatch prev d.box with _ | m
        · have hacc := processDet_unmatched prev t acc hcls hmatch
          by_cases hk : k = acc.nid + 1
          · subst hk
            apply fold_keys_mono prev t rest (processDet prev t acc d)
            rw [hacc]
            exact mem_keys_insert.mpr (Or.inr rfl)
          · have h1' : (processDet prev t acc d).nid < k := by
              rw [hacc]
              show acc.nid + 1 < k
              omega
            have h2' : k ≤
                (List.foldl (processDet prev t)
                  (processDet prev t acc d) rest).nid := h2
            exact ih (processDet prev t acc d) k h1' h2'
        · obtain ⟨v, hv⟩ :=
            mem_keys_iff_dictGet.mp (findBestMatch_mem_keys hmatch)
          have hacc := processDet_matched prev t acc hcls hmatch hv
          refine ih (processDet prev t acc d) k ?_ h2
          rw [hacc]
          exact h1
      · have hacc := processDet_skip prev t acc hcls
        refine ih (processDet prev t acc d) k ?_ h2
        rw [hacc]
        exact h1

theorem fold_keys_complete (prev : Trackers) (t : ℚ) :
    ∀ (ds : List RawDet) (acc : FrameAcc) (k : Nat),
      k ∈ keys (List.foldl (processDet prev t) acc ds).cur →
      k ∈ keys acc.cur ∨
      (∃ d ∈ ds, d.cls = PERSON_CLASS_ID ∧
        findBestMatch prev d.box = some k) ∨
      (acc.nid < k ∧ k ≤ (List.foldl (processDet prev t) acc ds).nid) := by
  intro ds
  induction ds with
  | nil => intro acc k h; exact Or.inl h
  | cons d rest ih =>
      intro acc k h
      have hmono : acc.nid ≤ (processDet prev t acc d).nid :=
        processDet_nid_ge prev t acc d
      rcases ih (processDet prev t acc d) k h with h' | h' | ⟨h1, h2⟩
      · by_cases hcls : d.cls = PERSON_CLASS_ID
        · rcases hmatch : findBestMatch prev d.box with _ | m
          · have hacc := processDet_unmatched prev t acc hcls hmatch
            rw [hacc] at h'
            rcases mem_keys_insert.mp h' with h'' | rfl
            · exact Or.inl h''
            · refine Or.inr (Or.inr ⟨Nat.lt_succ_self _, ?_⟩)
              have : (processDet prev t acc d).nid = acc.nid + 1 := by
                rw [hacc]
              calc acc.nid + 1 = (processDet prev t acc d).nid := this.symm
                _ ≤ _ := fold_nid_mono prev t rest (processDet prev t acc d)
          · obtain ⟨v, hv⟩ :=
              mem_keys_iff_dictGet.mp (findBestMatch_mem_keys hmatch)
            have hacc := processDet_matched prev t acc hcls hmatch hv
            rw [hacc] at h'
            rcases mem_keys_insert.mp h' with h'' | rfl
            · exact Or.inl h''
            · exact Or.inr (Or.inl ⟨d, List.mem_cons_self _ _,
                hcls, hmatch⟩)
        · rw [processDet_skip prev t acc hcls] at h'
          exact Or.inl h'
      · rcases h' with ⟨d', hd', hp⟩
        exact Or.inr (Or.inl ⟨d', List.mem_cons_of_mem _ hd', hp⟩)
      · exact Or.inr (Or.inr ⟨lt_of_le_of_lt hmono h1, h2⟩)

theorem fold_keys_nodup (prev : Trackers) (t : ℚ) :
    ∀ (ds : List RawDet) (acc : FrameAcc),
      (keys acc.cur).Nodup →
      (keys (List.foldl (processDet prev t) acc ds).cur).Nodup := by
  intro ds
  induction ds with
  | nil => intro acc h; exact h
  | cons d rest ih =>
      intro acc h
      refine ih (processDet prev t acc d) ?_
      by_cases hcls : d.cls = PERSON_CLASS_ID
      · rcases hmatch : findBestMatch prev d.box with _ | m
        · rw [processDet_unmatched prev t acc hcls hmatch]
          exact keys_nodup_insert h
        · obtain ⟨v, hv⟩ :=
            mem_keys_iff_dictGet.mp (findBestMatch_mem_keys hmatch)
          rw [processDet_matched prev t acc hcls hmatch hv]
          exact keys_nodup_insert h
      · rw [processDet_skip prev t acc hcls]
        exact h

/-- Key characterization at the frame level: after a frame, a track id is
present exactly when some person detection of the frame matched it, or it
is one of the fresh ids issued during the frame. -/
theorem detectFrame_keys_iff (s : StabState) (dets : List RawDet) (t : ℚ)
    (k : Nat) :
    k ∈ keys (detectFrame s dets t).1.trackers ↔
      (∃ d ∈ dets, d.cls = PERSON_CLASS_ID ∧
        findBestMatch s.trackers d.box = some k) ∨
      (s.next_track_id < k ∧
        k ≤ (detectFrame s dets t).1.next_track_id) := by
  constructor
  · intro h
    rcases fold_keys_complete s.trackers t dets ⟨[], s.next_track_id, []⟩
        k h with h' | h' | h'
    · simp [keys] at h'
    · exact Or.inl h'
    · exact Or.inr h'
  · rintro (h | ⟨h1, h2⟩)
    · exact fold_keys_of_matched s.trackers t dets _ k h
    · exact fold_keys_of_fresh s.trackers t dets _ k h1 h2

theorem detectFrame_nid_mono (s : StabState) (dets : List RawDet)
    (t : ℚ) : s.next_track_id ≤ (detectFrame s dets t).1.next_track_id :=
  fold_nid_mono s.trackers t dets ⟨[], s.next_track_id, []⟩

theorem detectFrame_keys_nodup (s : StabState) (dets : List RawDet)
    (t : ℚ) : (keys (detectFrame s dets t).1.trackers).Nodup :=
  fold_keys_nodup s.trackers t dets ⟨[], s.next_track_id, []⟩ (by
    simp [keys])

/-- The issued-ids bound: all keys stay at or below the id counter. -/
def keysBound (s : StabState) : Prop :=
  ∀ k ∈ keys s.trackers, k ≤ s.next_track_id

theorem detectFrame_keysBound {s : StabState} (dets : List RawDet)
    (t : ℚ) (h : keysBound s) : keysBound (detectFrame s dets t).1 := by
  intro k hk
  rcases (detectFrame_keys_iff s dets t k).mp hk with
    ⟨d, _, _, hmatch⟩ | ⟨_, h2⟩
  · exact le_trans (h k (findBestMatch_mem_keys hmatch))
      (detectFrame_nid_mono s dets t)
  · exact h2

theorem run_keysBound :
    ∀ (fs : List (List RawDet × ℚ)) (s : StabState),
      keysBound s → keysBound (run s fs) := by
  intro fs
  induction fs with
  | nil => intro s h; exact h
  | cons f rest ih =>
      intro s h
      exact ih (stepFrame s f) (detectFrame_keysBound f.1 f.2 h)

theorem stateAfter_keysBound (pre : List (List RawDet × ℚ)) :
    keysBound (stateAfter pre) :=
  run_keysBound pre initState (by intro k hk; simp [initState, keys] at hk)

/-! ## Claim theorems: matched-detection update (C3) and output boxes (C2) -/

/-- C3: for a matched detection, the displayed confidence becomes the raw
confidence and the timestamp is reset exactly when
`t - last_update > 0.25`; otherwise both are kept; and in either case the
stored box becomes `old * 0.7 + new * 0.3` in every coordinate. -/
theorem matched_update_throttle_and_smoothing (prev : Trackers) (t : ℚ)
    (acc : FrameAcc) (d : RawDet) (k : Nat) (tr : Tracker)
    (hcls : d.cls = PERSON_CLASS_ID)
    (hm : findBestMatch prev d.box = some k)
    (hg : dictGet prev k = some tr) :
    ∃ e, dictGet (processDet prev t acc d).cur k = some e ∧
      ((t - tr.last_update > CONFIDENCE_UPDATE_INTERVAL ∧
          e.conf = d.conf ∧ e.last_update = t) ∨
        (t - tr.last_update ≤ CONFIDENCE_UPDATE_INTERVAL ∧
          e.conf = tr.conf ∧ e.last_update = tr.last_update)) ∧
      e.bbox.x1 = tr.bbox.x1 * (7/10) + (d.x1 : ℚ) * (3/10) ∧
      e.bbox.y1 = tr.bbox.y1 * (7/10) + (d.y1 : ℚ) * (3/10) ∧
      e.bbox.x2 = tr.bbox.x2 * (7/10) + (d.x2 : ℚ) * (3/10) ∧
      e.bbox.y2 = tr.bbox.y2 * (7/10) + (d.y2 : ℚ) * (3/10) := by
  rw [processDet_matched prev t acc hcls hm hg]
  refine ⟨_, dictGet_insert_self _ _ _, ?_, ?_, ?_, ?_, ?_⟩
  · by_cases ht : t - tr.last_update > CONFIDENCE_UPDATE_INTERVAL
    · exact Or.inl ⟨ht, by simp [ht], by simp [ht]⟩
    · exact Or.inr ⟨not_lt.mp ht, by simp [ht], by simp [ht]⟩
  all_goals
    (simp only [smoothBox, smoothCoord, BOX_SMOOTHING_FACTOR, RawDet.box];
      ring)

/-- Witness for C3: the worked example of the spec, frame 2 at `t = 0.05`
against the tracker from frame 1: the interval has not elapsed, so
confidence `0.9` and timestamp `0` are kept, and the box smooths to
`(10.6, 10, 50.6, 50)`. -/
theorem matched_update_throttle_and_smoothing_witness :
    ∃ e,
      dictGet (processDet [(1, ⟨9/10, 0, ⟨10, 10, 50, 50⟩⟩)] (1/20)
          ⟨[], 1, []⟩ cexDet2).cur 1 = some e ∧
      ((1/20 - (0 : ℚ) > CONFIDENCE_UPDATE_INTERVAL ∧
          e.conf = 17/20 ∧ e.last_update = 1/20) ∨
        ((1/20 : ℚ) - 0 ≤ CONFIDENCE_UPDATE_INTERVAL ∧
          e.conf = 9/10 ∧ e.last_update = 0)) ∧
      e.bbox.x1 = (10 : ℚ) * (7/10) + ((12 : ℤ) : ℚ) * (3/10) ∧
      e.bbox.y1 = (10 : ℚ) * (7/10) + ((10 : ℤ) : ℚ) * (3/10) ∧
      e.bbox.x2 = (50 : ℚ) * (7/10) + ((52 : ℤ) : ℚ) * (3/10) ∧
      e.bbox.y2 = (50 : ℚ) * (7/10) + ((50 : ℤ) : ℚ) * (3/10) :=
  matched_update_throttle_and_smoothing
    [(1, ⟨9/10, 0, ⟨10, 10, 50, 50⟩⟩)] (1/20) ⟨[], 1, []⟩ cexDet2 1
    ⟨9/10, 0, ⟨10, 10, 50, 50⟩⟩ rfl
    (by
      norm_num [findBestMatch, bestMatchAux, calculate_iou, unionArea,
        interArea, boxArea, max_def, min_def, cexDet2, RawDet.box])
    (by simp [dictGet])

/-- C2 as stated is false: in the spec's own worked example the smoothed
box is `(10.6, 10, 50.6, 50)` (held in the tracker), but the emitted
integer box is `(10, 10, 50, 50)` — Python `int()` truncates toward zero —
not the claimed rounding `(11, 10, 51, 50)`. -/
theorem output_box_rounding_counterexample :
    (detectFrame cexState2 [cexDet2] (1/20)).2 =
      [⟨(10, 10, 50, 50), 9/10, 0⟩] ∧
    (detectFrame cexState2 [cexDet2] (1/20)).1.trackers =
      [(1, ⟨9/10, 0, ⟨53/5, 10, 253/5, 50⟩⟩)] ∧
    ((10 : ℤ), (10 : ℤ), (50 : ℤ), (50 : ℤ)) ≠
      ((11 : ℤ), (10 : ℤ), (51 : ℤ), (50 : ℤ)) := by
  norm_num [detectFrame, stepFrame, run, initState, cexState2, seedDet2,
    cexDet2, processDet, findBestMatch, bestMatchAux, calculate_iou,
    unionArea, interArea, boxArea, dictGet, dictInsert, smoothBox,
    smoothCoord, pyIntBox, pyInt, RawDet.box, PERSON_CLASS_ID,
    CONFIDENCE_UPDATE_INTERVAL, BOX_SMOOTHING_FACTOR, max_def, min_def]

/-- C2 amended: every emitted bounding box is the (possibly smoothed)
floating-point box truncated toward zero to integer coordinates
(`pyIntBox`); a raw first-frame box of integers is emitted unchanged, and
the smoothed box `(10.6, 10, 50.6, 50)` is emitted as `(10, 10, 50, 50)`. -/
theorem output_box_truncation (prev : Trackers) (t : ℚ) (acc : FrameAcc)
    (d : RawDet) (k : Nat) (tr : Tracker)
    (hcls : d.cls = PERSON_CLASS_ID)
    (hm : findBestMatch prev d.box = some k)
    (hg : dictGet prev k = some tr) :
    (processDet prev t acc d).outs = acc.outs ++
      [⟨pyIntBox (smoothBox tr.bbox d.box),
        if t - tr.last_update > CONFIDENCE_UPDATE_INTERVAL then d.conf
          else tr.conf,
        d.cls⟩] ∧
    (∀ d' : RawDet, pyIntBox d'.box = (d'.x1, d'.y1, d'.x2, d'.y2)) ∧
    pyIntBox ⟨53/5, 10, 253/5, 50⟩ = (10, 10, 50, 50) := by
  refine ⟨?_, ?_, by norm_num [pyIntBox, pyInt]⟩
  · rw [processDet_matched prev t acc hcls hm hg]
  · intro d'
    simp [pyIntBox, RawDet.box, pyInt_intCast]

/-- Witness for C2 (amended), at the worked example's input: the single
emitted detection carries box `(10, 10, 50, 50)`. -/
theorem output_box_truncation_witness :
    (processDet [(1, ⟨9/10, 0, ⟨10, 10, 50, 50⟩⟩)] (1/20) ⟨[], 1, []⟩
        cexDet2).outs = [] ++
      [⟨pyIntBox (smoothBox ⟨10, 10, 50, 50⟩ cexDet2.box),
        if (1/20 : ℚ) - 0 > CONFIDENCE_UPDATE_INTERVAL then 17/20
          else 9/10,
        cexDet2.cls⟩] ∧
    (∀ d' : RawDet, pyIntBox d'.box = (d'.x1, d'.y1, d'.x2, d'.y2)) ∧
    pyIntBox ⟨53/5, 10, 253/5, 50⟩ = (10, 10, 50, 50) :=
  output_box_truncation [(1, ⟨9/10, 0, ⟨10, 10, 50, 50⟩⟩)] (1/20)
    ⟨[], 1, []⟩ cexDet2 1 ⟨9/10, 0, ⟨10, 10, 50, 50⟩⟩ rfl
    (by
      norm_num [findBestMatch, bestMatchAux, calculate_iou, unionArea,
        interArea, boxArea, max_def, min_def, cexDet2, RawDet.box])
    (by simp [dictGet])

/-! ## Surviving- and created-entry lemmas (confidence throttle) -/

theorem dictGet_none_of_not_mem {l : Trackers} {k : Nat}
    (h : k ∉ keys l) : dictGet l k = none := by
  rcases hg : dictGet l k with _ | v
  · rfl
  · exact absurd (mem_keys_iff_dictGet.mpr ⟨v, hg⟩) h

theorem fold_surviving (prev : Trackers) (t : ℚ) (k : Nat) (e : Tracker)
    (hkmem : dictGet prev k = some e) (bound : Nat) (hbound : k ≤ bound) :
    ∀ (ds : List RawDet) (acc : FrameAcc),
      bound ≤ acc.nid →
      (dictGet acc.cur k = none ∨ ∃ e'', dictGet acc.cur k = some e'' ∧
        ((e''.conf = e.conf ∧ e''.last_update = e.last_update) ∨
         (t - e.last_update > CONFIDENCE_UPDATE_INTERVAL ∧
           e''.last_update = t))) →
      (dictGet (List.foldl (processDet prev t) acc ds).cur k = none ∨
       ∃ e'', dictGet (List.foldl (processDet prev t) acc ds).cur k =
          some e'' ∧
        ((e''.conf = e.conf ∧ e''.last_update = e.last_update) ∨
         (t - e.last_update > CONFIDENCE_UPDATE_INTERVAL ∧
           e''.last_update = t))) := by
  intro ds
  induction ds with
  | nil => intro acc _ h; exact h
  | cons d rest ih =>
      intro acc hnid h
      refine ih (processDet prev t acc d)
        (le_trans hnid (processDet_nid_ge prev t acc d)) ?_
      by_cases hcls : d.cls = PERSON_CLASS_ID
      · rcases hmatch : findBestMatch prev d.box with _ | m
        · rw [processDet_unmatched prev t acc hcls hmatch]
          have hne : k ≠ acc.nid + 1 := by omega
          rw [show (⟨dictInsert acc.cur (acc.nid + 1) ⟨d.conf, t, d.box⟩,
            acc.nid + 1,
            acc.outs ++ [⟨pyIntBox d.box, d.conf, d.cls⟩]⟩ :
              FrameAcc).cur =
            dictInsert acc.cur (acc.nid + 1) ⟨d.conf, t, d.box⟩ from rfl]
          rw [dictGet_insert_ne _ _ _ _ hne]
          exact h
        · obtain ⟨v, hv⟩ :=
            mem_keys_iff_dictGet.mp (findBestMatch_mem_keys hmatch)
          rw [processDet_matched prev t acc hcls hmatch hv]
          by_cases hkm : m = k
          · subst hkm
            have hve : v = e := by
              rw [hv] at hkmem
              exact Option.some.inj hkmem
            subst hve
            right
            refine ⟨_, dictGet_insert_self _ _ _, ?_⟩
            by_cases ht : t - v.last_update > CONFIDENCE_UPDATE_INTERVAL
            · exact Or.inr ⟨ht, by simp [ht]⟩
            · exact Or.inl ⟨by simp [ht], by simp [ht]⟩
          · rw [show ({ acc with
                cur := dictInsert acc.cur m
                  ⟨if t - v.last_update > CONFIDENCE_UPDATE_INTERVAL
                      then d.conf else v.conf,
                   if t - v.last_update > CONFIDENCE_UPDATE_INTERVAL
                      then t else v.last_update,
                   smoothBox v.bbox d.box⟩,
                outs := acc.outs ++
                  [⟨pyIntBox (smoothBox v.bbox d.box),
                    if t - v.last_update > CONFIDENCE_UPDATE_INTERVAL
                      then d.conf else v.conf,
                    d.cls⟩] } : FrameAcc).cur =
              dictInsert acc.cur m
                ⟨if t - v.last_update > CONFIDENCE_UPDATE_INTERVAL
                    then d.conf else v.conf,
                 if t - v.last_update > CONFIDENCE_UPDATE_INTERVAL
                    then t else v.last_update,
                 smoothBox v.bbox d.box⟩ from rfl]
            rw [dictGet_insert_ne _ _ _ _ (fun hc => hkm hc.symm)]
            exact h
      · rw [processDet_skip prev t acc hcls]
        exact h

theorem detectFrame_surviving_entry {s : StabState} {dets : List RawDet}
    {t : ℚ} {k : Nat} {e e' : Tracker} (hinv : keysBound s)
    (hb : dictGet s.trackers k = some e)
    (ha : dictGet (detectFrame s dets t).1.trackers k = some e') :
    (e'.conf = e.conf ∧ e'.last_update = e.last_update) ∨
    (t - e.last_update > CONFIDENCE_UPDATE_INTERVAL ∧
      e'.last_update = t) := by
  have hk : k ≤ s.next_track_id :=
    hinv k (mem_keys_iff_dictGet.mpr ⟨e, hb⟩)
  have ha' : dictGet (List.foldl (processDet s.trackers t)
      ⟨[], s.next_track_id, []⟩ dets).cur k = some e' := ha
  rcases fold_surviving s.trackers t k e hb s.next_track_id hk dets
      ⟨[], s.next_track_id, []⟩ le_rfl (Or.inl rfl) with hnone |
      ⟨e'', he'', hgood⟩
  · rw [hnone] at ha'
    cases ha'
  · rw [he''] at ha'
    obtain rfl := Option.some.inj ha'
    exact hgood

theorem fold_new_entry (prev : Trackers) (t : ℚ) (k : Nat)
    (hkmem : dictGet prev k = none) :
    ∀ (ds : List RawDet) (acc : FrameAcc),
      (dictGet acc.cur k = none ∨ ∃ e'', dictGet acc.cur k = some e'' ∧
        e''.last_update = t) →
      (dictGet (List.foldl (processDet prev t) acc ds).cur k = none ∨
       ∃ e'', dictGet (List.foldl (processDet prev t) acc ds).cur k =
          some e'' ∧ e''.last_update = t) := by
  intro ds
  induction ds with
  | nil => intro acc h; exact h
  | cons d rest ih =>
      intro acc h
      refine ih (processDet prev t acc d) ?_
      by_cases hcls : d.cls = PERSON_CLASS_ID
      · rcases hmatch : findBestMatch prev d.box with _ | m
        · rw [processDet_unmatched prev t acc hcls hmatch]
          by_cases hk : k = acc.nid + 1
          · subst hk
            exact Or.inr ⟨_, dictGet_insert_self _ _ _, rfl⟩
          · rw [show (⟨dictInsert acc.cur (acc.nid + 1)
                ⟨d.conf, t, d.box⟩, acc.nid + 1,
                acc.outs ++ [⟨pyIntBox d.box, d.conf, d.cls⟩]⟩ :
                  FrameAcc).cur =
              dictInsert acc.cur (acc.nid + 1) ⟨d.conf, t, d.box⟩ from
                rfl]
            rw [dictGet_insert_ne _ _ _ _ hk]
            exact h
        · obtain ⟨v, hv⟩ :=
            mem_keys_iff_dictGet.mp (findBestMatch_mem_keys hmatch)
          have hkm : m ≠ k := by
            intro hc
            subst hc
            rw [hkmem] at hv
            cases hv
          rw [processDet_matched prev t acc hcls hmatch hv]
          rw [show ({ acc with
              cur := dictInsert acc.cur m
                ⟨if t - v.last_update > CONFIDENCE_UPDATE_INTERVAL
                    then d.conf else v.conf,
                 if t - v.last_update > CONFIDENCE_UPDATE_INTERVAL
                    then t else v.last_update,
                 smoothBox v.bbox d.box⟩,
              outs := acc.outs ++
                [⟨pyIntBox (smoothBox v.bbox d.box),
                  if t - v.last_update > CONFIDENCE_UPDATE_INTERVAL
                    then d.conf else v.conf,
                  d.cls⟩] } : FrameAcc).cur =
            dictInsert acc.cur m
              ⟨if t - v.last_update > CONFIDENCE_UPDATE_INTERVAL
                  then d.conf else v.conf,
               if t - v.last_update > CONFIDENCE_UPDATE_INTERVAL
                  then t else v.last_update,
               smoothBox v.bbox d.box⟩ from rfl]
          rw [dictGet_insert_ne _ _ _ _ (fun hc => hkm hc.symm)]
          exact h
      · rw [processDet_skip prev t acc hcls]
        exact h

theorem detectFrame_new_entry_lu {s : StabState} {dets : List RawDet}
    {t : ℚ} {k : Nat} {e' : Tracker}
    (hb : dictGet s.trackers k = none)
    (ha : dictGet (detectFrame s dets t).1.trackers k = some e') :
    e'.last_update = t := by
  have ha' : dictGet (List.foldl (processDet s.trackers t)
      ⟨[], s.next_track_id, []⟩ dets).cur k = some e' := ha
  rcases fold_new_entry s.trackers t k hb dets ⟨[], s.next_track_id, []⟩
      (Or.inl rfl) with hnone | ⟨e'', he'', hlu⟩
  · rw [hnone] at ha'
    cases ha'
  · rw [he''] at ha'
    obtain rfl := Option.some.inj ha'
    exact hlu

theorem run_lu_ge :
    ∀ (fs : List (List RawDet × ℚ)) (s : StabState) (k : Nat)
      (e : Tracker) (τ : ℚ),
      keysBound s → dictGet s.trackers k = some e →
      τ ≤ e.last_update → (∀ f ∈ fs, τ ≤ f.2) →
      (∀ n ≤ fs.length,
        (dictGet (run s (List.take n fs)).trackers k).isSome = true) →
      ∃ e', dictGet (run s fs).trackers k = some e' ∧
        τ ≤ e'.last_update := by
  intro fs
  induction fs with
  | nil =>
      intro s k e τ _ hb hτ _ _
      exact ⟨e, hb, hτ⟩
  | cons f rest ih =>
      intro s k e τ hkb hb hτ hft halive
      have h1 : (dictGet (stepFrame s f).trackers k).isSome = true := by
        have := halive 1 (by simp)
        simpa [run] using this
      obtain ⟨e1, he1⟩ := Option.isSome_iff_exists.mp h1
      have hgood := detectFrame_surviving_entry hkb hb he1
      have hτ1 : τ ≤ e1.last_update := by
        rcases hgood with ⟨_, hl⟩ | ⟨_, hl⟩
        · rw [hl]; exact hτ
        · rw [hl]; exact hft f (List.mem_cons_self _ _)
      have hkb1 : keysBound (stepFrame s f) :=
        detectFrame_keysBound f.1 f.2 hkb
      have halive1 : ∀ n ≤ rest.length,
          (dictGet (run (stepFrame s f)
            (List.take n rest)).trackers k).isSome = true := by
        intro n hn
        have := halive (n + 1) (by simpa using Nat.succ_le_succ hn)
        rw [List.take_succ_cons] at this
        exact this
      have hrun : run s (f :: rest) = run (stepFrame s f) rest := rfl
      rw [hrun]
      exact ih (stepFrame s f) k e1 τ hkb1 he1 hτ1
        (fun g hg => hft g (List.mem_cons_of_mem _ hg)) halive1

/-! ## Claim theorem: confidence update interval (C9) -/

/-- C9: along any run from a fresh stabilizer (frames `pre`, then `fi`,
then `mid`, then `fj`, with the times of `mid` at or after `fi`'s), if
the displayed confidence of identity `k` is set at frame `fi` (created,
or changed against the previous state) and changes again at frame `fj`
while the identity stays alive in between, then the two frames are more
than `0.25` seconds apart: per tracked identity, the displayed confidence
never changes more often than once per `0.25` seconds, however fast the
frames arrive. -/
theorem confidence_change_interval
    (pre : List (List RawDet × ℚ)) (fi : List RawDet × ℚ)
    (mid : List (List RawDet × ℚ)) (fj : List RawDet × ℚ) (k : Nat)
    (eI eMid eJ : Tracker)
    (hmidT : ∀ f ∈ mid, fi.2 ≤ f.2)
    (heI : dictGet (stepFrame (stateAfter pre) fi).trackers k = some eI)
    (hEventI : dictGet (stateAfter pre).trackers k = none ∨
      ∃ ePre, dictGet (stateAfter pre).trackers k = some ePre ∧
        eI.conf ≠ ePre.conf)
    (halive : ∀ n ≤ mid.length,
      (dictGet (run (stepFrame (stateAfter pre) fi)
        (List.take n mid)).trackers k).isSome = true)
    (heMid : dictGet (run (stepFrame (stateAfter pre) fi) mid).trackers k
      = some eMid)
    (heJ : dictGet (stepFrame (run (stepFrame (stateAfter pre) fi) mid)
      fj).trackers k = some eJ)
    (hconf : eJ.conf ≠ eMid.conf) :
    fj.2 - fi.2 > CONFIDENCE_UPDATE_INTERVAL := by
  have hkbPre : keysBound (stateAfter pre) := stateAfter_keysBound pre
  have heIlu : eI.last_update = fi.2 := by
    rcases hEventI with hnone | ⟨ePre, hPre, hne⟩
    · exact detectFrame_new_entry_lu hnone heI
    · rcases detectFrame_surviving_entry hkbPre hPre heI with ⟨hc, _⟩ |
        ⟨_, hl⟩
      · exact absurd hc hne
      · exact hl
  have hkbI : keysBound (stepFrame (stateAfter pre) fi) :=
    detectFrame_keysBound fi.1 fi.2 hkbPre
  obtain ⟨eM, hM, hMlu⟩ := run_lu_ge mid (stepFrame (stateAfter pre) fi)
    k eI fi.2 hkbI heI (le_of_eq heIlu.symm) hmidT halive
  have heq : eM = eMid := by
    rw [hM] at heMid
    exact Option.some.inj heMid
  have hMlu' : fi.2 ≤ eMid.last_update := by
    rw [← heq]
    exact hMlu
  have hkbMid : keysBound (run (stepFrame (stateAfter pre) fi) mid) :=
    run_keysBound mid _ hkbI
  rcases detectFrame_surviving_entry hkbMid heMid heJ with ⟨hc, _⟩ |
    ⟨hthrottle, _⟩
  · exact absurd hc hconf
  · linarith

/-- Witness for C9: identity `1` is created at time `0` (confidence
`0.9`) and its confidence changes to `0.85` at time `0.3`; the theorem
yields `0.3 - 0 > 0.25`. -/
theorem confidence_change_interval_witness :
    ((([wDetB], (3/10 : ℚ))).2 - (([wDetA], (0 : ℚ))).2 >
      CONFIDENCE_UPDATE_INTERVAL) :=
  confidence_change_interval [] ([wDetA], 0) [] ([wDetB], 3/10) 1
    ⟨9/10, 0, ⟨0, 0, 10, 10⟩⟩ ⟨9/10, 0, ⟨0, 0, 10, 10⟩⟩
    ⟨17/20, 3/10, ⟨0, 0, 10, 10⟩⟩
    (by simp)
    (by
      norm_num [stateAfter, run, stepFrame, detectFrame, initState,
        processDet, findBestMatch, bestMatchAux, dictGet, dictInsert,
        wDetA, RawDet.box, PERSON_CLASS_ID, pyIntBox, pyInt])
    (Or.inl rfl)
    (by
      intro n hn
      have hn0 : n = 0 := Nat.le_zero.mp hn
      subst hn0
      norm_num [stateAfter, run, stepFrame, detectFrame, initState,
        processDet, findBestMatch, bestMatchAux, dictGet, dictInsert,
        wDetA, RawDet.box, PERSON_CLASS_ID, pyIntBox, pyInt])
    (by
      norm_num [stateAfter, run, stepFrame, detectFrame, initState,
        processDet, findBestMatch, bestMatchAux, dictGet, dictInsert,
        wDetA, RawDet.box, PERSON_CLASS_ID, pyIntBox, pyInt])
    (by
      norm_num [stateAfter, run, stepFrame, detectFrame, initState,
        processDet, findBestMatch, bestMatchAux, calculate_iou,
        unionArea, interArea, boxArea, dictGet, dictInsert, smoothBox,
        smoothCoord, pyIntBox, pyInt, wDetA, wDetB, RawDet.box,
        PERSON_CLASS_ID, CONFIDENCE_UPDATE_INTERVAL,
        BOX_SMOOTHING_FACTOR, max_def, min_def])
    (by norm_num)

/-! ## Claim theorems: tracked-object set per frame (C1) and new tracks (C6) -/

/-- C1 as stated is false: from the reachable state `cexState1` with one
tracked object at `(0,0,100,100)`, a frame holding two detections at
`(0,0,100,100)` and `(0,0,100,99)` matches BOTH to tracked object `1`
(the loop never removes a matched tracker from the candidate set), so two
detections survive in the output while the tracked-object set keeps a
single entry: the set does not contain one entry per surviving detection,
and a tracked object was matched by two detections in one frame. -/
theorem one_entry_per_detection_counterexample :
    findBestMatch cexState1.trackers seedDetA.box = some 1 ∧
    findBestMatch cexState1.trackers cexDetB.box = some 1 ∧
    (detectFrame cexState1 [seedDetA, cexDetB] (1/10)).2.length = 2 ∧
    (detectFrame cexState1 [seedDetA, cexDetB] (1/10)).1.trackers.length
      = 1 := by
  norm_num [detectFrame, stepFrame, run, initState, cexState1, seedDetA,
    cexDetB, processDet, findBestMatch, bestMatchAux, calculate_iou,
    unionArea, interArea, boxArea, dictGet, dictInsert, smoothBox,
    smoothCoord, pyIntBox, pyInt, RawDet.box, PERSON_CLASS_ID,
    CONFIDENCE_UPDATE_INTERVAL, BOX_SMOOTHING_FACTOR, max_def, min_def]

/-- C1 amended: after a frame, the tracked-object set contains exactly
the ids matched by some person detection of the frame plus the freshly
issued ids (one per unmatched person detection), without duplicates; each
detection matches at most one tracked object (though one tracked object
may be matched by several detections, keeping a single entry); and no
tracked object from the previous frame survives unless some person
detection matched it, which requires IoU strictly above `0.5` with its
stored box. -/
theorem tracker_set_after_frame (s : StabState) (dets : List RawDet)
    (t : ℚ) (hinv : keysBound s) :
    (∀ k, k ∈ keys (detectFrame s dets t).1.trackers ↔
      (∃ d ∈ dets, d.cls = PERSON_CLASS_ID ∧
        findBestMatch s.trackers d.box = some k) ∨
      (s.next_track_id < k ∧
        k ≤ (detectFrame s dets t).1.next_track_id)) ∧
    (keys (detectFrame s dets t).1.trackers).Nodup ∧
    (∀ d : RawDet, ∀ k1 k2, findBestMatch s.trackers d.box = some k1 →
      findBestMatch s.trackers d.box = some k2 → k1 = k2) ∧
    (∀ k ∈ keys s.trackers, k ∈ keys (detectFrame s dets t).1.trackers →
      ∃ d ∈ dets, d.cls = PERSON_CLASS_ID ∧
        ∃ tr, (k, tr) ∈ s.trackers ∧ 1/2 < calculate_iou d.box tr.bbox) := by
  refine ⟨detectFrame_keys_iff s dets t, detectFrame_keys_nodup s dets t,
    ?_, ?_⟩
  · intro d k1 k2 h1 h2
    rw [h1] at h2
    exact Option.some.inj h2
  · intro k hk hk'
    rcases (detectFrame_keys_iff s dets t k).mp hk' with
      ⟨d, hd, hcls, hmatch⟩ | ⟨h1, _⟩
    · obtain ⟨tr, hmem, hiou, _⟩ := findBestMatch_some hmatch
      exact ⟨d, hd, hcls, tr, hmem, hiou⟩
    · exact absurd (hinv k hk) (not_le.mpr h1)

/-- Witness for C1 (amended), at the counterexample input: the resulting
key list has no duplicate identities. -/
theorem tracker_set_after_frame_witness :
    (keys (detectFrame cexState1 [seedDetA, cexDetB]
      (1/10)).1.trackers).Nodup :=
  (tracker_set_after_frame cexState1 [seedDetA, cexDetB] (1/10)
    (by
      intro k hk
      have h1 : keys cexState1.trackers = [1] := by
        norm_num [cexState1, stepFrame, run, detectFrame, initState,
          seedDetA, processDet, findBestMatch, bestMatchAux, dictInsert,
          keys, RawDet.box, PERSON_CLASS_ID, pyIntBox, pyInt]
      have h2 : cexState1.next_track_id = 1 := by
        norm_num [cexState1, stepFrame, run, detectFrame, initState,
          seedDetA, processDet, findBestMatch, bestMatchAux, dictInsert,
          RawDet.box, PERSON_CLASS_ID, pyIntBox, pyInt]
      rw [h1] at hk
      rw [h2]
      simp at hk
      omega)).2.1

/-- C6: an unmatched person detection allocates the identity
`next_track_id + 1` and stores the raw box, raw confidence and
`currentTime` (no smoothing); the id counter never decreases, every key
of every reachable state is at most the counter, and any id present after
a frame either survived from before or is strictly greater than the
counter before the frame — so a new identity strictly exceeds every
previously issued identity, including those of dropped tracks. -/
theorem new_track_raw_values_and_fresh_id (prev : Trackers) (t : ℚ)
    (acc : FrameAcc) (d : RawDet)
    (hcls : d.cls = PERSON_CLASS_ID)
    (hnone : findBestMatch prev d.box = none) :
    ((processDet prev t acc d).nid = acc.nid + 1 ∧
      dictGet (processDet prev t acc d).cur (acc.nid + 1) =
        some ⟨d.conf, t, d.box⟩) ∧
    (∀ pre : List (List RawDet × ℚ), keysBound (stateAfter pre)) ∧
    (∀ (s : StabState) (dets : List RawDet) (tt : ℚ),
      s.next_track_id ≤ (detectFrame s dets tt).1.next_track_id) ∧
    (∀ (s : StabState) (dets : List RawDet) (tt : ℚ) (k : Nat),
      k ∈ keys (detectFrame s dets tt).1.trackers →
      k ∈ keys s.trackers ∨ s.next_track_id < k) := by
  refine ⟨⟨?_, ?_⟩, stateAfter_keysBound, detectFrame_nid_mono, ?_⟩
  · rw [processDet_unmatched prev t acc hcls hnone]
  · rw [processDet_unmatched prev t acc hcls hnone]
    exact dictGet_insert_self _ _ _
  · intro s dets tt k hk
    rcases (detectFrame_keys_iff s dets tt k).mp hk with
      ⟨d', _, _, hm⟩ | ⟨h1, _⟩
    · exact Or.inl (findBestMatch_mem_keys hm)
    · exact Or.inr h1

/-- Witness for C6: on an empty tracker set, `seedDetA` creates track `1`
with its raw values at time `0`. -/
theorem new_track_raw_values_and_fresh_id_witness :
    ((processDet [] 0 ⟨[], 0, []⟩ seedDetA).nid = 0 + 1 ∧
      dictGet (processDet [] 0 ⟨[], 0, []⟩ seedDetA).cur (0 + 1) =
        some ⟨seedDetA.conf, 0, seedDetA.box⟩) ∧
    (∀ pre : List (List RawDet × ℚ), keysBound (stateAfter pre)) ∧
    (∀ (s : StabState) (dets : List RawDet) (tt : ℚ),
      s.next_track_id ≤ (detectFrame s dets tt).1.next_track_id) ∧
    (∀ (s : StabState) (dets : List RawDet) (tt : ℚ) (k : Nat),
      k ∈ keys (detectFrame s dets tt).1.trackers →
      k ∈ keys s.trackers ∨ s.next_track_id < k) :=
  new_track_raw_values_and_fresh_id [] 0 ⟨[], 0, []⟩ seedDetA rfl rfl

/-! ## Claim theorems: empty input (C5) and inference failure (C10) -/

/-- C5: a call with an empty detection list returns an empty output
(hence count `0`) and leaves the tracked-object set empty, and any
sequence of empty-detection frames keeps it empty. -/
theorem empty_input_clears_trackers (s : StabState) (t : ℚ) (ts : List ℚ)
    {α : Type} (annotate : α → List OutDet → α) (ds : DetectorState)
    (frame : α) :
    detectFrame s [] t = (⟨[], s.next_track_id⟩, []) ∧
    detect_humans annotate ds frame (.ok []) t =
      (⟨[], ds.next_track_id, []⟩, annotate frame [], 0, []) ∧
    (run s ((t :: ts).map fun τ => (([] : List RawDet), τ))).trackers =
      [] := by
  have haux : ∀ (ts' : List ℚ) (n : Nat),
      run ⟨[], n⟩ (ts'.map fun τ => (([] : List RawDet), τ)) = ⟨[], n⟩ := by
    intro ts'
    induction ts' with
    | nil => intro n; rfl
    | cons τ rest ih =>
        intro n
        have h1 : run (⟨[], n⟩ : StabState)
            ((τ :: rest).map fun τ' => (([] : List RawDet), τ')) =
            run (stepFrame ⟨[], n⟩ ([], τ))
              (rest.map fun τ' => (([] : List RawDet), τ')) := rfl
        have h2 : stepFrame (⟨[], n⟩ : StabState) ([], τ) = ⟨[], n⟩ := rfl
        rw [h1, h2, ih n]
  refine ⟨rfl, rfl, ?_⟩
  have h1 : run s ((t :: ts).map fun τ => (([] : List RawDet), τ)) =
      run (stepFrame s ([], t)) (ts.map fun τ => (([] : List RawDet), τ)) :=
    rfl
  have h2 : stepFrame s ([], t) = ⟨[], s.next_track_id⟩ := rfl
  rw [h1, h2, haux ts s.next_track_id]

/-- C10: if inference raises, `detect_humans` returns the input frame,
count `0` and an empty list, leaving the tracker set, the id counter and
`get_last_detections` exactly as before the call — in contrast to a
successful empty detection list, which empties the tracker set. -/
theorem inference_error_preserves_state {α : Type}
    (annotate : α → List OutDet → α) (s : DetectorState) (frame : α)
    (t : ℚ) :
    detect_humans annotate s frame (.error ()) t = (s, frame, 0, []) ∧
    get_last_detections (detect_humans annotate s frame (.error ()) t).1 =
      get_last_detections s ∧
    (detect_humans annotate s frame (.ok []) t).1.trackers = [] :=
  ⟨rfl, rfl, rfl⟩

end HumanDetector
